import Mathlib

/-!
Verification development for the incremental LeetCode-to-GitHub sync engine.

The definitions below are a shallow embedding of the JavaScript source in
`src/test_config.js` (which also serves as the action implementation).
Conventions of the embedding:

* Machine numbers are `Nat` (timestamps are epoch seconds; commit dates are
  stored as epoch milliseconds, which is the value `Date.parse` returns and
  the value `new Date(ms).toISOString()` round-trips through, so dates flow
  through the model as milliseconds).
* Fallible operations return `Except String` / `Option`; a thrown JavaScript
  exception is an `Except.error`, and dereferencing `undefined` is modelled
  as the fixed `typeErrorMsg` failure.
* A network operation is modelled as a function from the attempt index to the
  outcome of that attempt, so retry behaviour is observable.
* The GitHub git objects are modelled by explicit state: the branch is the
  list of commits reachable from the ref, newest first.  Every `updateRef`
  call in the source targets a freshly created commit whose parent is the
  current head, so the forced ref update is modelled as prepending that
  commit to the branch list.  Object ids (SHAs) returned by the host are
  modelled as fresh names drawn from a counter.
* `String.prototype.startsWith` of JavaScript is modelled as a prefix test
  on the character sequence (`strStartsWith`).
-/

namespace LeetcodeSync

/-- Identity recorded in a git commit (`{name, email}`). -/
structure Author where
  name : String
  email : String
deriving DecidableEq, Repr, Inhabited

/-- A commit as reported by `octokit.repos.listCommits` and as created by
`octokit.git.createCommit`: sha, message, author and committer identities,
author/committer dates (epoch milliseconds, the `Date.parse` value), parent
shas, and the sha of the tree. -/
structure RepoCommit where
  sha : String
  message : String
  author : Author
  committer : Author
  authorDateMs : Nat
  committerDateMs : Nat
  parents : List String
  treeSha : String
deriving DecidableEq, Repr, Inhabited

/-- One entry of the `tree` array passed to `octokit.git.createTree`. -/
structure TreeEntry where
  path : String
  mode : String
  content : String
deriving DecidableEq, Repr, Inhabited

/-- A tree object created by `octokit.git.createTree` (sha, base tree, entries). -/
structure GitTree where
  sha : String
  baseTree : String
  entries : List TreeEntry
deriving DecidableEq, Repr, Inhabited

/-- The state of the target GitHub repository: the branch (commits reachable
from the default-branch ref, newest first), the tree objects created so far,
and a counter supplying fresh object ids. -/
structure GitRepo where
  branch : List RepoCommit
  trees : List GitTree
  counter : Nat
deriving DecidableEq, Repr, Inhabited

/-- One submission entry of a `submissionList` page, as delivered by the
platform (newest first). -/
structure ListedSubmission where
  id : Nat
  lang : String
  timestamp : Nat
  statusDisplay : String
  titleSlug : String
deriving DecidableEq, Repr, Inhabited

/-- One page of the submission listing. -/
structure Page where
  submissions : List ListedSubmission
  hasNext : Bool
deriving DecidableEq, Repr, Inhabited

/-- The record `{id, titleSlug}` pushed by `addToSubmissions`. -/
structure SubmissionRef where
  id : Nat
  titleSlug : String
deriving DecidableEq, Repr, Inhabited

/-- The `lang` object of a `submissionDetails` response (`{name}`). -/
structure SubLang where
  name : String
deriving DecidableEq, Repr, Inhabited

/-- A `submissionDetails` response. -/
structure SubmissionDetails where
  runtimeDisplay : String
  memoryDisplay : String
  code : String
  timestamp : Nat
  lang : SubLang
deriving DecidableEq, Repr, Inhabited

/-- A `topicTags` element of a question response (`{name}`). -/
structure TopicTag where
  name : String
deriving DecidableEq, Repr, Inhabited

/-- A `question` response (`{title, content, difficulty, topicTags}`). -/
structure Question where
  title : String
  content : String
  difficulty : String
  topicTags : List TopicTag
deriving DecidableEq, Repr, Inhabited

/-- The enriched submission object built in the sync loop, before the
`readme` field is attached. -/
structure SubCore where
  id : Nat
  slug : String
  title : String
  lang : String
  timestamp : Nat
  code : String
  question : String
  difficulty : String
  tags : List String
  runtimeDisplay : String
  memoryDisplay : String
deriving DecidableEq, Repr, Inhabited

/-- The enriched submission with its generated readme, as passed to `commit`. -/
structure Submission extends SubCore where
  readme : String
deriving DecidableEq, Repr, Inhabited

/-- `const COMMIT_MESSAGE = "["` — the sync marker. -/
def COMMIT_MESSAGE : String := "["

/-- `const LANG_TO_EXTENSION = { golang: "go" }` — the fixed language to
file-extension table; absent keys yield `undefined`, modelled as `none`. -/
def LANG_TO_EXTENSION (lang : String) : Option String :=
  if lang = "golang" then some "go" else none

/-- Model of the JavaScript `String.prototype.startsWith` test: the pattern
is a prefix of the character sequence of the string. -/
def strStartsWith (s p : String) : Bool :=
  p.data.isPrefixOf s.data

/-- Message of a failed property access on `undefined`. -/
def typeErrorMsg : String := "TypeError: Cannot read properties of undefined"

/-- Recursion core of the retry closure, structural on the remaining budget
`maxRetries - retryCount`: in `Nat`, `maxRetries - retryCount = 0` holds
exactly when `retryCount >= maxRetries`, the rethrow condition of the source,
and the budget of the recursive call at `retryCount + 1` is one less. -/
def withRetryAux (op : Nat → Except String α) :
    Nat → Nat → Except String α × List Nat
  | retryCount, remaining =>
    match op retryCount with
    | .ok a => (.ok a, [])
    | .error e =>
      match remaining with
      | 0 => (.error e, [])
      | n + 1 =>
        let r := withRetryAux op (retryCount + 1) n
        (r.1, 3 ^ retryCount * 1000 :: r.2)

/-- The retry closure shared by `getSubmissions` and `getInfo`:
run the attempt-indexed operation at `retryCount`; on success return; on
failure rethrow if `retryCount >= maxRetries` and otherwise wait
`3 ** retryCount * 1000` milliseconds and recurse with `retryCount + 1`.
Returns the outcome together with the list of waits (milliseconds) performed. -/
def withRetry (op : Nat → Except String α) (maxRetries retryCount : Nat) :
    Except String α × List Nat :=
  withRetryAux op retryCount (maxRetries - retryCount)

/-- `getSubmissionData`: the detail lookup wraps its network call in the
retry closure with the default budget `maxRetries = 5`. -/
def getSubmissionData (op : Nat → Except String SubmissionDetails) :
    Except String SubmissionDetails × List Nat :=
  withRetry op 5 0

/-- `getQuestionData`: a single network attempt inside `try/catch`; on
failure the exception is logged and the function returns `undefined`,
modelled as `none`. -/
def getQuestionData (op : Nat → Except String Question) : Option Question :=
  match op 0 with
  | .ok q => some q
  | .error _ => none

/-- The `{id, titleSlug}` record pushed for an accepted entry. -/
def refOf (s : ListedSubmission) : SubmissionRef :=
  ⟨s.id, s.titleSlug⟩

/-- `addToSubmissions`: walk the page entries in delivered order; an entry
with `timestamp <= mostRecentTimestamp` returns `false` at once (stop);
a non-accepted entry is skipped; an accepted entry is appended.  Returns the
grown accumulator and the continue flag. -/
def addToSubmissions : List ListedSubmission → List SubmissionRef → Nat →
    List SubmissionRef × Bool
  | [], acc, _ => (acc, true)
  | s :: rest, acc, mostRecentTimestamp =>
    if s.timestamp ≤ mostRecentTimestamp then (acc, false)
    else if s.statusDisplay ≠ "Accepted" then addToSubmissions rest acc mostRecentTimestamp
    else addToSubmissions rest (acc ++ [refOf s]) mostRecentTimestamp

/-- Retry budget of a listing request: `response === null ? 0 : 5` — the very
first request of the run fails fast, every later one retries up to 5 times. -/
def pageRetryBudget (isFirst : Bool) : Nat :=
  if isFirst then 0 else 5

/-- The listing loop of `sync`: fetch a page through the retry closure
(budget 0 for the first request, 5 afterwards), feed it to
`addToSubmissions`, stop when it returns `false`, and continue to the next
offset only while `hasNext` holds.  Each list element is the attempt-indexed
outcome of the request for one offset. -/
def runListing : List (Nat → Except String Page) → Nat → List SubmissionRef →
    Bool → Except String (List SubmissionRef)
  | [], _, acc, _ => .ok acc
  | fetch :: rest, mostRecentTimestamp, acc, isFirst =>
    match (withRetry fetch (pageRetryBudget isFirst) 0).1 with
    | .error e => .error e
    | .ok page =>
      let r := addToSubmissions page.submissions acc mostRecentTimestamp
      if r.2 && page.hasNext then runListing rest mostRecentTimestamp r.1 false
      else .ok r.1

/-- The scan of `sync` lines 155-162: the first fetched commit (newest first)
whose message starts with the sync marker. -/
def findSyncCommit (commits : List RepoCommit) : Option RepoCommit :=
  commits.find? (fun c => strStartsWith c.message COMMIT_MESSAGE)

/-- Checkpoint recovery of `sync` lines 150-162: `commitInfo` defaults to the
author of the last (oldest) fetched commit — reading it crashes when the
fetched list is empty, hence `none` — and the first marker commit overrides
both the author and `mostRecentTimestamp = Date.parse(committerDate) / 1000`. -/
def resolveCheckpoint (commits : List RepoCommit) : Option (Nat × Author) :=
  match commits.getLast? with
  | none => none
  | some last =>
    match findSyncCommit commits with
    | some c => some (c.committerDateMs / 1000, c.author)
    | none => some (0, last.author)

/-- The external collaborators of the enrichment step and the submission
source itself: the attempt-indexed listing requests per offset, the
attempt-indexed detail lookup per submission id, the attempt-indexed question
lookup per slug, the HTML-to-Markdown renderer, and the readme template. -/
structure SyncSource where
  pages : List (Nat → Except String Page)
  details : Nat → Nat → Except String SubmissionDetails
  questions : String → Nat → Except String Question
  htmlToMd : String → String
  render : SubCore → String

/-- Outcome of the detail lookup for one collected ref. -/
def detailOf (src : SyncSource) (r : SubmissionRef) : Except String SubmissionDetails :=
  (getSubmissionData (src.details r.id)).1

/-- Outcome of the question lookup for one collected ref. -/
def questionOf (src : SyncSource) (r : SubmissionRef) : Option Question :=
  getQuestionData (src.questions r.titleSlug)

/-- The enriched submission object of `sync` lines 259-284: merge the detail
and question responses, collect the tag names, translate the question body,
and render the readme from the merged record. -/
def buildSubmission (src : SyncSource) (r : SubmissionRef)
    (sd : SubmissionDetails) (q : Question) : Submission :=
  let core : SubCore :=
    { id := r.id
      slug := r.titleSlug
      title := q.title
      lang := sd.lang.name
      timestamp := sd.timestamp
      code := sd.code
      question := src.htmlToMd q.content
      difficulty := q.difficulty
      tags := q.topicTags.map TopicTag.name
      runtimeDisplay := sd.runtimeDisplay
      memoryDisplay := sd.memoryDisplay }
  { toSubCore := core, readme := src.render core }

/-- The enriched submission a ref resolves to when both lookups succeed. -/
def subOf (src : SyncSource) (r : SubmissionRef) : Submission :=
  buildSubmission src r ((detailOf src r).toOption.getD default)
    ((questionOf src r).getD default)

/-- The two tree entries of `commit`: the source file
`<title>/<slug>.<ext>` and the readme `<title>/README.md`. -/
def mkTreeData (s : Submission) (ext : String) : List TreeEntry :=
  [⟨s.title ++ "/" ++ s.slug ++ "." ++ ext, "100644", s.code⟩,
   ⟨s.title ++ "/README.md", "100644", s.readme⟩]

/-- The part of the commit message after the sync marker:
`difficulty ++ "] [" ++ tags ++ "] [" ++ runtime ++ "] [" ++ memory ++ "]"`
(a JavaScript template string turns the tag array into its comma join). -/
def msgTail (s : Submission) : String :=
  s.difficulty ++ "] [" ++ String.intercalate "," s.tags
    ++ "] [" ++ s.runtimeDisplay ++ "] [" ++ s.memoryDisplay ++ "]"

/-- The commit object `commit` creates: message
`"[" ++ difficulty ++ "] [" ++ tags ++ "] [" ++ runtime ++ "] [" ++ memory ++ "]"`,
author and committer both the recovered identity, author and committer date
both the submission timestamp as an instant (milliseconds of
`new Date(timestamp * 1000).toISOString()`), single parent, and the tree
created just before; ids are fresh names from the state counter. -/
def mkSyncCommit (cI : Author) (s : Submission) (parentSha : String) (counter : Nat) :
    RepoCommit :=
  { sha := "commit#" ++ toString (counter + 1)
    message := COMMIT_MESSAGE ++ msgTail s
    author := cI
    committer := cI
    authorDateMs := s.timestamp * 1000
    committerDateMs := s.timestamp * 1000
    parents := [parentSha]
    treeSha := "tree#" ++ toString counter }

/-- The `commit` function (source lines 31-99): fail if the language has no
registered extension, otherwise create the tree on the given base tree,
create the commit with the given parent, force the ref to it, and return the
new tree and commit shas together with the advanced repository state. -/
def commitOp (cI : Author) (treeSHA latestCommitSHA : String) (s : Submission)
    (repo : GitRepo) : Except String (String × String × GitRepo) :=
  match LANG_TO_EXTENSION s.lang with
  | none => .error ("Language " ++ s.lang ++ " does not have a registered extension.")
  | some ext =>
    let tree : GitTree := ⟨"tree#" ++ toString repo.counter, treeSHA, mkTreeData s ext⟩
    let c := mkSyncCommit cI s latestCommitSHA repo.counter
    .ok (tree.sha, c.sha,
      { branch := c :: repo.branch, trees := tree :: repo.trees, counter := repo.counter + 2 })

/-- Result of a run: the repository state when the run ended, and the
exception it terminated with, if any. -/
structure RunResult where
  repo : GitRepo
  error : Option String
deriving DecidableEq, Repr

/-- The commit loop of `sync` lines 255-296, already given the collected refs
in processing order (oldest first): fetch detail (with retry) and question
(single attempt, errors swallowed to `undefined`), build the enriched
submission, commit it, and thread the returned tree/commit shas into the next
iteration.  Any failure ends the run with the repository state reached so
far. -/
def commitAll (src : SyncSource) (cI : Author) :
    List SubmissionRef → String → String → GitRepo → RunResult
  | [], _, _, repo => ⟨repo, none⟩
  | r :: rest, treeSHA, latestSHA, repo =>
    match detailOf src r with
    | .error e => ⟨repo, some e⟩
    | .ok sd =>
      match questionOf src r with
      | none => ⟨repo, some typeErrorMsg⟩
      | some q =>
        match commitOp cI treeSHA latestSHA (buildSubmission src r sd q) repo with
        | .error e => ⟨repo, some e⟩
        | .ok (t, c, repo2) => commitAll src cI rest t c repo2

/-- The orchestrator `sync`: list the most recent 100 commits, recover the
checkpoint (crashing on an empty history), collect the pending refs through
the paginated listing, and run the commit loop over the reversed (oldest
first) list seeded with the head commit and tree shas. -/
def sync (src : SyncSource) (repo : GitRepo) : RunResult :=
  match repo.branch.take 100 with
  | [] => ⟨repo, some typeErrorMsg⟩
  | c0 :: cs =>
    match resolveCheckpoint (c0 :: cs) with
    | none => ⟨repo, some typeErrorMsg⟩
    | some (mostRecentTimestamp, commitInfo) =>
      match runListing src.pages mostRecentTimestamp [] true with
      | .error e => ⟨repo, some e⟩
      | .ok subs => commitAll src commitInfo subs.reverse c0.treeSha c0.sha repo

/-- Days of each month of a (leap-aware) year, for the civil calendar. -/
def daysInMonth (y m : Nat) : Nat :=
  if m = 2 then (if y % 4 = 0 ∧ (y % 100 ≠ 0 ∨ y % 400 = 0) then 29 else 28)
  else if m = 4 ∨ m = 6 ∨ m = 9 ∨ m = 11 then 30
  else 31

/-- Days between 1970-01-01 and the civil date y-m-d (for y at or after 1970). -/
def daysFromCivil (y m d : Nat) : Nat :=
  (List.range (y - 1970)).foldl (fun acc i => acc + (if (1970 + i) % 4 = 0 ∧ ((1970 + i) % 100 ≠ 0 ∨ (1970 + i) % 400 = 0) then 366 else 365)) 0
  + (List.range (m - 1)).foldl (fun acc i => acc + daysInMonth y (i + 1)) 0
  + (d - 1)

/-- `Date.parse` on an ISO-8601 UTC instant, in milliseconds: the standard
civil-calendar conversion. -/
def epochMillisOfUtc (y m d h mi s : Nat) : Nat :=
  (((daysFromCivil y m d * 24 + h) * 60 + mi) * 60 + s) * 1000

/-- The commits one run creates for the given submissions (oldest first),
chained from the given parent sha and fresh-id counter. -/
def syncChain (cI : Author) : List Submission → String → Nat → List RepoCommit
  | [], _, _ => []
  | s :: rest, parentSha, counter =>
    let c := mkSyncCommit cI s parentSha counter
    c :: syncChain cI rest c.sha (counter + 2)

/-- The tree objects one run creates for the given submissions (oldest
first), each layered on the tree created for the previous one. -/
def syncTrees : List Submission → String → Nat → List GitTree
  | [], _, _ => []
  | s :: rest, baseSha, counter =>
    let t : GitTree := ⟨"tree#" ++ toString counter, baseSha,
      mkTreeData s ((LANG_TO_EXTENSION s.lang).getD "")⟩
    t :: syncTrees rest t.sha (counter + 2)

instance {ε α : Type} [DecidableEq ε] [DecidableEq α] : DecidableEq (Except ε α) :=
  fun a b =>
    match a, b with
    | .ok x, .ok y => decidable_of_iff (x = y) (by simp)
    | .ok _, .error _ => isFalse (by simp)
    | .error _, .ok _ => isFalse (by simp)
    | .error e, .error f => decidable_of_iff (e = f) (by simp)

/-! Concrete instances used to evaluate the model on closed inputs. -/

/-- A concrete human author identity. -/
def authorW : Author := ⟨"Alice Dev", "alice@dev.example"⟩

/-- A concrete ordinary (non-sync) commit forming the initial history. -/
def baseCommitW : RepoCommit :=
  ⟨"base", "initial commit", authorW, authorW, 0, 0, [], "basetree"⟩

/-- A concrete repository with a one-commit history. -/
def repoW : GitRepo := ⟨[baseCommitW], [], 0⟩

/-- A concrete ordinary commit with a given sha suffix. -/
def plainCommitW (n : Nat) : RepoCommit :=
  ⟨"sha" ++ toString n, "chore: update", authorW, authorW, 0, 0, [], "t"⟩

/-- A concrete sync-marked commit whose committer date is
2023-01-01T00:00:00Z. -/
def markedCommitW : RepoCommit :=
  ⟨"m3", "[Easy] [Array] [1 ms] [2 MB]", ⟨"Marked Author", "marked@dev.example"⟩,
   ⟨"Marked Author", "marked@dev.example"⟩, 0, epochMillisOfUtc 2023 1 1 0 0 0, [], "mt"⟩

/-- A concrete pre-existing commit whose message merely happens to begin
with the bracket character. -/
def bracketCommitW : RepoCommit :=
  ⟨"b1", "[WIP] rework parser module", authorW, authorW, 0, 5999, [], "bt"⟩

/-- Concrete listed submissions. -/
def eW1 : ListedSubmission := ⟨11, "golang", 100, "Accepted", "two-sum"⟩

def eW2 : ListedSubmission := ⟨22, "golang", 200, "Accepted", "add-two"⟩

def eW3 : ListedSubmission := ⟨33, "golang", 300, "Accepted", "third-problem"⟩

/-- Concrete detail responses. -/
def sdW1 : SubmissionDetails := ⟨"1 ms", "2 MB", "code one", 100, ⟨"golang"⟩⟩

def sdW2 : SubmissionDetails := ⟨"2 ms", "3 MB", "code two", 200, ⟨"golang"⟩⟩

def sdW3 : SubmissionDetails := ⟨"3 ms", "4 MB", "code three", 300, ⟨"golang"⟩⟩

/-- A detail response with an unregistered language. -/
def sdW2rust : SubmissionDetails := ⟨"2 ms", "3 MB", "code two", 200, ⟨"rust"⟩⟩

/-- Concrete question responses. -/
def qW1 : Question := ⟨"Two Sum", "body one", "Easy", [⟨"Array"⟩, ⟨"Hash Table"⟩]⟩

def qW2 : Question := ⟨"Add Two", "body two", "Medium", [⟨"Math"⟩]⟩

def qW3 : Question := ⟨"Third Problem", "body three", "Hard", [⟨"Graph"⟩]⟩

/-- Concrete detail lookup by submission id, always succeeding. -/
def detailsW (id : Nat) : Nat → Except String SubmissionDetails :=
  fun _ => if id = 11 then .ok sdW1 else if id = 22 then .ok sdW2 else .ok sdW3

/-- Concrete detail lookup where submission 22 has the unregistered
language. -/
def detailsBadW (id : Nat) : Nat → Except String SubmissionDetails :=
  fun _ => if id = 11 then .ok sdW1 else if id = 22 then .ok sdW2rust else .ok sdW3

/-- Concrete question lookup by slug, always succeeding. -/
def questionsW (slug : String) : Nat → Except String Question :=
  fun _ => if slug = "two-sum" then .ok qW1 else if slug = "add-two" then .ok qW2
    else .ok qW3

/-- A concrete source delivering one page with three accepted submissions
(newest first) and all lookups succeeding. -/
def srcW : SyncSource :=
  ⟨[fun _ => .ok ⟨[eW3, eW2, eW1], false⟩], detailsW, questionsW,
   fun s => s, fun c => "readme " ++ c.slug⟩

/-- The same source except that the detail of submission 22 reports the
unregistered language. -/
def srcBadW : SyncSource :=
  ⟨[fun _ => .ok ⟨[eW3, eW2, eW1], false⟩], detailsBadW, questionsW,
   fun s => s, fun c => "readme " ++ c.slug⟩

/-- A concrete enriched submission with a registered language. -/
def subW1 : Submission :=
  ⟨⟨11, "two-sum", "Two Sum", "golang", 100, "code one", "body one", "Easy",
    ["Array", "Hash Table"], "1 ms", "2 MB"⟩, "readme two-sum"⟩

/-- A question lookup that fails on every attempt. -/
def qFailOp : Nat → Except String Question := fun _ => .error "network down"

/-- A question lookup that fails on the first attempt and would succeed on
any retry. -/
def qFlakyOp : Nat → Except String Question :=
  fun k => if k = 0 then .error "rate limited" else .ok qW1

/-- Listed submissions realizing the timestamp pattern [50, 45, 40, 30, 20]
of the specification example, with the 45 entry not accepted. -/
def f50 : ListedSubmission := ⟨1, "golang", 50, "Accepted", "p50"⟩

def f45 : ListedSubmission := ⟨5, "golang", 45, "Wrong Answer", "p45"⟩

def f40 : ListedSubmission := ⟨2, "golang", 40, "Accepted", "p40"⟩

def f30 : ListedSubmission := ⟨3, "golang", 30, "Accepted", "p30"⟩

def f20 : ListedSubmission := ⟨4, "golang", 20, "Accepted", "p20"⟩

/-- A page request failing at every attempt with an attempt-stamped error. -/
def pageFailOp : Nat → Except String Page :=
  fun k => .error ("listing failed at attempt " ++ toString k)

/-- A source whose question lookups always fail. -/
def srcQFW : SyncSource :=
  ⟨[], detailsW, fun _ => qFailOp, fun s => s, fun c => "readme " ++ c.slug⟩

/-- A concrete enriched submission with the unregistered language. -/
def subRustW : Submission :=
  ⟨⟨22, "add-two", "Add Two", "rust", 200, "code two", "body two", "Medium",
    ["Math"], "2 ms", "3 MB"⟩, "readme add-two"⟩

/-- Each commit of the list has exactly the previous list element as parent,
starting from the given sha. -/
def chainLinked : String → List RepoCommit → Prop
  | _, [] => True
  | p, c :: rest => c.parents = [p] ∧ chainLinked c.sha rest

/-- Both lookups of a collected ref succeed and its language has a
registered extension, so its commit is created. -/
def refOk (src : SyncSource) (r : SubmissionRef) : Prop :=
  (detailOf src r).isOk = true ∧ (questionOf src r).isSome = true ∧
    (LANG_TO_EXTENSION (subOf src r).lang).isSome = true

/-- Both lookups of a collected ref succeed but its language has no
registered extension, so its commit attempt throws. -/
def refLangMissing (src : SyncSource) (r : SubmissionRef) : Prop :=
  (detailOf src r).isOk = true ∧ (questionOf src r).isSome = true ∧
    LANG_TO_EXTENSION (subOf src r).lang = none

instance (src : SyncSource) (r : SubmissionRef) : Decidable (refOk src r) := by
  unfold refOk
  infer_instance

instance (src : SyncSource) (r : SubmissionRef) : Decidable (refLangMissing src r) := by
  unfold refLangMissing
  infer_instance

section Lemmas

/-- Characterization of `addToSubmissions`: it appends the refs of the
accepted entries of the longest strictly-above-checkpoint prefix, and
signals continuation exactly when every entry of the page is above the
checkpoint. -/
theorem addToSubmissions_eq (page : List ListedSubmission) (acc : List SubmissionRef)
    (ts : Nat) :
    addToSubmissions page acc ts =
      (acc ++ ((page.takeWhile fun s => decide (ts < s.timestamp)).filter
          fun s => decide (s.statusDisplay = "Accepted")).map refOf,
        page.all fun s => decide (ts < s.timestamp)) := by
  induction page generalizing acc with
  | nil => simp [addToSubmissions]
  | cons s rest ih =>
    by_cases h1 : s.timestamp ≤ ts
    · have h1d : ¬(ts < s.timestamp) := by omega
      simp [addToSubmissions, h1, List.takeWhile_cons, h1d]
    · have h1d : ts < s.timestamp := by omega
      by_cases h2 : s.statusDisplay = "Accepted"
      · simp [addToSubmissions, h1, h2, List.takeWhile_cons, h1d, ih, List.filter_cons]
      · simp [addToSubmissions, h1, h2, List.takeWhile_cons, h1d, ih, List.filter_cons]

theorem takeWhile_append_all {α : Type} {p : α → Bool} (l1 l2 : List α)
    (h : ∀ x ∈ l1, p x = true) :
    (l1 ++ l2).takeWhile p = l1 ++ l2.takeWhile p := by
  induction l1 with
  | nil => simp
  | cons a as ih =>
    have ha : p a = true := h a (by simp)
    simp only [List.cons_append, List.takeWhile_cons, ha, if_true]
    simp [ih (fun x hx => h x (by simp [hx]))]

/-- A string extending the sync marker starts with the sync marker. -/
theorem strStartsWith_marker (x : String) :
    strStartsWith (COMMIT_MESSAGE ++ x) COMMIT_MESSAGE = true := by
  have hdata : (COMMIT_MESSAGE ++ x).data = '[' :: x.data := by
    rw [String.data_append]; rfl
  rw [strStartsWith, hdata]
  show List.isPrefixOf ['['] ('[' :: x.data) = true
  simp [List.isPrefixOf]

/-- The message of every commit the engine creates starts with the marker. -/
theorem mkSyncCommit_marker (cI : Author) (s : Submission) (p : String) (ctr : Nat) :
    strStartsWith (mkSyncCommit cI s p ctr).message COMMIT_MESSAGE = true :=
  strStartsWith_marker (msgTail s)

/-- A successful first attempt returns at once, with no waits. -/
theorem withRetryAux_ok {α : Type} (op : Nat → Except String α) (j n : Nat) (a : α)
    (h : op j = .ok a) : withRetryAux op j n = (.ok a, []) := by
  rw [withRetryAux.eq_def]
  simp [h]

/-- Exhausting the budget on persistent failure re-raises the final failure
and waits `3 ^ k * 1000` milliseconds before attempt `k + 1`. -/
theorem withRetryAux_fail {α : Type} (op : Nat → Except String α) (e : Nat → String) :
    ∀ (n j : Nat), (∀ k, j ≤ k → k ≤ j + n → op k = .error (e k)) →
    withRetryAux op j n =
      (.error (e (j + n)), (List.range n).map fun i => 3 ^ (j + i) * 1000) := by
  intro n
  induction n with
  | zero =>
    intro j h
    rw [withRetryAux.eq_def]
    simp [h j le_rfl (by omega)]
  | succ n ih =>
    intro j h
    have h0 : op j = .error (e j) := h j le_rfl (by omega)
    have hrec := ih (j + 1) (fun k hk1 hk2 => h k (by omega) (by omega))
    have harith : j + 1 + n = j + (n + 1) := by omega
    have hlist : (List.range (n + 1)).map (fun i => 3 ^ (j + i) * 1000) =
        3 ^ j * 1000 :: (List.range n).map (fun i => 3 ^ (j + 1 + i) * 1000) := by
      rw [List.range_succ_eq_map, List.map_cons, List.map_map]
      simp only [List.cons.injEq]
      constructor
      · norm_num
      · apply List.map_congr_left
        intro i hi
        have hidx : j + Nat.succ i = j + 1 + i := by omega
        simp [Function.comp, hidx]
    rw [hlist, withRetryAux.eq_def]
    simp only [h0, hrec]
    rw [harith]

/-- `withRetry` succeeds without waiting when the first attempt succeeds. -/
theorem withRetry_ok {α : Type} (op : Nat → Except String α) (maxRetries : Nat) (a : α)
    (h : op 0 = .ok a) : withRetry op maxRetries 0 = (.ok a, []) := by
  rw [withRetry]
  exact withRetryAux_ok op 0 (maxRetries - 0) a h

/-- `withRetry` from attempt 0 on persistent failure: the error of the final
attempt `maxRetries` is re-raised after waits of `3 ^ k * 1000` milliseconds
for each retry `k < maxRetries`. -/
theorem withRetry_fail {α : Type} (op : Nat → Except String α) (maxRetries : Nat)
    (e : Nat → String) (h : ∀ k, k ≤ maxRetries → op k = .error (e k)) :
    withRetry op maxRetries 0 =
      (.error (e maxRetries), (List.range maxRetries).map fun k => 3 ^ k * 1000) := by
  rw [withRetry]
  have := withRetryAux_fail op e (maxRetries - 0) 0 (fun k hk1 hk2 => h k (by omega))
  simpa using this

/-- A page whose fetch succeeds at once and that `addToSubmissions` fully
consumes with the continue flag, in a listing that continues. -/
theorem runListing_cons_continue (page : Page) (rest : List (Nat → Except String Page))
    (ts : Nat) (acc : List SubmissionRef) (isFirst : Bool)
    (hall : page.submissions.all (fun s => decide (ts < s.timestamp)) = true)
    (hnext : page.hasNext = true) :
    runListing ((fun _ => .ok page) :: rest) ts acc isFirst =
      runListing rest ts
        (acc ++ ((page.submissions.takeWhile fun s => decide (ts < s.timestamp)).filter
          fun s => decide (s.statusDisplay = "Accepted")).map refOf) false := by
  have hw : (withRetry (fun _ : Nat => (Except.ok page : Except String Page))
      (pageRetryBudget isFirst) 0) = (.ok page, []) := withRetry_ok _ _ page rfl
  simp [runListing, hw, addToSubmissions_eq, hall, hnext]

/-- A page containing an entry at or below the checkpoint stops the listing:
the accepted entries of the strictly-above prefix are kept and every further
page is ignored. -/
theorem runListing_cons_stop (page : Page) (rest : List (Nat → Except String Page))
    (ts : Nat) (acc : List SubmissionRef) (isFirst : Bool)
    (hstop : page.submissions.all (fun s => decide (ts < s.timestamp)) = false) :
    runListing ((fun _ => .ok page) :: rest) ts acc isFirst =
      .ok (acc ++ ((page.submissions.takeWhile fun s => decide (ts < s.timestamp)).filter
        fun s => decide (s.statusDisplay = "Accepted")).map refOf) := by
  have hw : (withRetry (fun _ : Nat => (Except.ok page : Except String Page))
      (pageRetryBudget isFirst) 0) = (.ok page, []) := withRetry_ok _ _ page rfl
  simp [runListing, hw, addToSubmissions_eq, hstop]

/-- A last page (`hasNext = false`) that is fully consumed ends the listing
normally. -/
theorem runListing_cons_last (page : Page) (rest : List (Nat → Except String Page))
    (ts : Nat) (acc : List SubmissionRef) (isFirst : Bool)
    (hnext : page.hasNext = false) :
    runListing ((fun _ => .ok page) :: rest) ts acc isFirst =
      .ok (acc ++ ((page.submissions.takeWhile fun s => decide (ts < s.timestamp)).filter
        fun s => decide (s.statusDisplay = "Accepted")).map refOf) := by
  have hw : (withRetry (fun _ : Nat => (Except.ok page : Except String Page))
      (pageRetryBudget isFirst) 0) = (.ok page, []) := withRetry_ok _ _ page rfl
  simp [runListing, hw, addToSubmissions_eq, hnext]

/-- The scan finds the first marker commit. -/
theorem findSyncCommit_append (pre : List RepoCommit) (c : RepoCommit)
    (post : List RepoCommit)
    (hpre : ∀ x ∈ pre, strStartsWith x.message COMMIT_MESSAGE = false)
    (hc : strStartsWith c.message COMMIT_MESSAGE = true) :
    findSyncCommit (pre ++ c :: post) = some c := by
  induction pre with
  | nil =>
    simp only [List.nil_append, findSyncCommit]
    exact List.find?_cons_of_pos _ hc
  | cons a as ih =>
    have ha := hpre a (by simp)
    have hstep : findSyncCommit ((a :: as) ++ c :: post) =
        findSyncCommit (as ++ c :: post) := by
      rw [List.cons_append, findSyncCommit, findSyncCommit]
      exact List.find?_cons_of_neg _ (by simp [ha])
    rw [hstep]
    exact ih (fun x hx => hpre x (by simp [hx]))

/-- Checkpoint recovery when a marker commit exists in the fetched window. -/
theorem resolveCheckpoint_of_find (commits : List RepoCommit) (hne : commits ≠ [])
    (c : RepoCommit) (hf : findSyncCommit commits = some c) :
    resolveCheckpoint commits = some (c.committerDateMs / 1000, c.author) := by
  simp only [resolveCheckpoint, List.getLast?_eq_getLast commits hne, hf]

/-- Checkpoint recovery when no fetched commit carries the marker: timestamp
0 and the author of the oldest fetched commit. -/
theorem resolveCheckpoint_no_marker (commits : List RepoCommit) (hne : commits ≠ [])
    (h : ∀ x ∈ commits, strStartsWith x.message COMMIT_MESSAGE = false) :
    resolveCheckpoint commits = some (0, (commits.getLast hne).author) := by
  have hf : findSyncCommit commits = none := by
    rw [findSyncCommit, List.find?_eq_none]
    intro x hx
    simp [h x hx]
  simp only [resolveCheckpoint, List.getLast?_eq_getLast commits hne, hf]

theorem syncChain_length (cI : Author) :
    ∀ (subs : List Submission) (sha : String) (ctr : Nat),
    (syncChain cI subs sha ctr).length = subs.length := by
  intro subs
  induction subs with
  | nil => intro sha ctr; simp [syncChain]
  | cons s rest ih => intro sha ctr; simp [syncChain, ih]

theorem syncTrees_length :
    ∀ (subs : List Submission) (sha : String) (ctr : Nat),
    (syncTrees subs sha ctr).length = subs.length := by
  intro subs
  induction subs with
  | nil => intro sha ctr; simp [syncTrees]
  | cons s rest ih => intro sha ctr; simp [syncTrees, ih]

theorem syncChain_committerDates (cI : Author) :
    ∀ (subs : List Submission) (sha : String) (ctr : Nat),
    (syncChain cI subs sha ctr).map (fun c => c.committerDateMs) =
      subs.map (fun s => s.timestamp * 1000) := by
  intro subs
  induction subs with
  | nil => intro sha ctr; simp [syncChain]
  | cons s rest ih => intro sha ctr; simp [syncChain, ih, mkSyncCommit]

theorem syncChain_authorDates (cI : Author) :
    ∀ (subs : List Submission) (sha : String) (ctr : Nat),
    (syncChain cI subs sha ctr).map (fun c => c.authorDateMs) =
      subs.map (fun s => s.timestamp * 1000) := by
  intro subs
  induction subs with
  | nil => intro sha ctr; simp [syncChain]
  | cons s rest ih => intro sha ctr; simp [syncChain, ih, mkSyncCommit]

theorem syncChain_identity (cI : Author) :
    ∀ (subs : List Submission) (sha : String) (ctr : Nat) (c : RepoCommit),
    c ∈ syncChain cI subs sha ctr →
    c.author = cI ∧ c.committer = cI ∧ strStartsWith c.message COMMIT_MESSAGE = true := by
  intro subs
  induction subs with
  | nil => intro sha ctr c hc; simp [syncChain] at hc
  | cons s rest ih =>
    intro sha ctr c hc
    simp only [syncChain, List.mem_cons] at hc
    rcases hc with hc | hc
    · subst hc
      exact ⟨rfl, rfl, mkSyncCommit_marker cI s sha ctr⟩
    · exact ih _ _ c hc

theorem syncChain_linked (cI : Author) :
    ∀ (subs : List Submission) (sha : String) (ctr : Nat),
    chainLinked sha (syncChain cI subs sha ctr) := by
  intro subs
  induction subs with
  | nil => intro sha ctr; simp [syncChain, chainLinked]
  | cons s rest ih =>
    intro sha ctr
    exact ⟨rfl, ih _ _⟩

theorem syncChain_getLast (cI : Author) :
    ∀ (subs : List Submission) (s : Submission) (sha : String) (ctr : Nat),
    ∃ p c2, (syncChain cI (subs ++ [s]) sha ctr).getLast? =
      some (mkSyncCommit cI s p c2) := by
  intro subs
  induction subs with
  | nil =>
    intro s sha ctr
    exact ⟨sha, ctr, rfl⟩
  | cons a as ih =>
    intro s sha ctr
    obtain ⟨p, c2, hlast⟩ :=
      ih s ("commit#" ++ toString (ctr + 1)) (ctr + 2)
    refine ⟨p, c2, ?_⟩
    have hform : ∃ b bs, syncChain cI (as ++ [s])
        ("commit#" ++ toString (ctr + 1)) (ctr + 2) = b :: bs := by
      apply List.exists_cons_of_ne_nil
      intro hnil
      have := syncChain_length cI (as ++ [s]) ("commit#" ++ toString (ctr + 1)) (ctr + 2)
      rw [hnil] at this
      simp at this
    obtain ⟨b, bs, hb⟩ := hform
    show ((mkSyncCommit cI a sha ctr) ::
      syncChain cI (as ++ [s]) ("commit#" ++ toString (ctr + 1)) (ctr + 2)).getLast? =
        some (mkSyncCommit cI s p c2)
    rw [hb, List.getLast?_cons_cons, ← hb, hlast]

theorem subOf_eq (src : SyncSource) (r : SubmissionRef) (sd : SubmissionDetails)
    (q : Question) (hd : detailOf src r = .ok sd) (hq : questionOf src r = some q) :
    subOf src r = buildSubmission src r sd q := by
  simp [subOf, hd, hq, Except.toOption]

theorem refOk_elim (src : SyncSource) (r : SubmissionRef) (h : refOk src r) :
    ∃ sd q ext, detailOf src r = .ok sd ∧ questionOf src r = some q ∧
      LANG_TO_EXTENSION (buildSubmission src r sd q).lang = some ext := by
  obtain ⟨h1, h2, h3⟩ := h
  cases hd : detailOf src r with
  | error e => rw [hd] at h1; simp [Except.isOk, Except.toBool] at h1
  | ok sd =>
    cases hq : questionOf src r with
    | none => rw [hq] at h2; simp at h2
    | some q =>
      have hs := subOf_eq src r sd q hd hq
      rw [hs] at h3
      cases hext : LANG_TO_EXTENSION (buildSubmission src r sd q).lang with
      | none => rw [hext] at h3; simp at h3
      | some ext => exact ⟨sd, q, ext, rfl, rfl, hext⟩

theorem refLangMissing_elim (src : SyncSource) (r : SubmissionRef)
    (h : refLangMissing src r) :
    ∃ sd q, detailOf src r = .ok sd ∧ questionOf src r = some q ∧
      LANG_TO_EXTENSION (buildSubmission src r sd q).lang = none := by
  obtain ⟨h1, h2, h3⟩ := h
  cases hd : detailOf src r with
  | error e => rw [hd] at h1; simp [Except.isOk, Except.toBool] at h1
  | ok sd =>
    cases hq : questionOf src r with
    | none => rw [hq] at h2; simp at h2
    | some q =>
      have hs := subOf_eq src r sd q hd hq
      rw [hs] at h3
      exact ⟨sd, q, rfl, rfl, h3⟩

/-- One-step unfolding of the commit loop. -/
theorem commitAll_cons (src : SyncSource) (cI : Author) (r : SubmissionRef)
    (rest : List SubmissionRef) (tS cS : String) (repo : GitRepo) :
    commitAll src cI (r :: rest) tS cS repo =
      match detailOf src r with
      | .error e => ⟨repo, some e⟩
      | .ok sd =>
        match questionOf src r with
        | none => ⟨repo, some typeErrorMsg⟩
        | some q =>
          match commitOp cI tS cS (buildSubmission src r sd q) repo with
          | .error e => ⟨repo, some e⟩
          | .ok (t, c, repo2) => commitAll src cI rest t c repo2 := rfl

/-- One-step unfolding of the commit loop once both lookups are known. -/
theorem commitAll_cons_ok (src : SyncSource) (cI : Author) (r : SubmissionRef)
    (rest : List SubmissionRef) (tS cS : String) (repo : GitRepo)
    (sd : SubmissionDetails) (q : Question)
    (hd : detailOf src r = .ok sd) (hq : questionOf src r = some q) :
    commitAll src cI (r :: rest) tS cS repo =
      match commitOp cI tS cS (buildSubmission src r sd q) repo with
      | .error e => ⟨repo, some e⟩
      | .ok (t, c, repo2) => commitAll src cI rest t c repo2 := by
  rw [commitAll_cons, hd, hq]

/-- The commit loop on refs that all succeed: it terminates without error,
prepends the reversed chain of created commits to the branch, records the
created trees, and advances the fresh-id counter twice per submission. -/
theorem commitAll_ok (src : SyncSource) (cI : Author) :
    ∀ (refs : List SubmissionRef) (tS cS : String) (repo : GitRepo),
    (∀ r ∈ refs, refOk src r) →
    commitAll src cI refs tS cS repo =
      ⟨⟨(syncChain cI (refs.map (subOf src)) cS repo.counter).reverse ++ repo.branch,
        (syncTrees (refs.map (subOf src)) tS repo.counter).reverse ++ repo.trees,
        repo.counter + 2 * refs.length⟩, none⟩ := by
  intro refs
  induction refs with
  | nil =>
    intro tS cS repo h
    simp [commitAll, syncChain, syncTrees]
  | cons r rest ih =>
    intro tS cS repo h
    obtain ⟨sd, q, ext, hd, hq, hext⟩ := refOk_elim src r (h r (by simp))
    have hsub : subOf src r = buildSubmission src r sd q := subOf_eq src r sd q hd hq
    have hgetD : (LANG_TO_EXTENSION ((subOf src r).lang)).getD "" = ext := by
      rw [hsub, hext]
      rfl
    have hop : commitOp cI tS cS (buildSubmission src r sd q) repo =
        .ok ("tree#" ++ toString repo.counter, "commit#" ++ toString (repo.counter + 1),
          ⟨mkSyncCommit cI (buildSubmission src r sd q) cS repo.counter :: repo.branch,
           (⟨"tree#" ++ toString repo.counter, tS,
             mkTreeData (buildSubmission src r sd q) ext⟩ : GitTree) :: repo.trees,
           repo.counter + 2⟩) := by
      simp [commitOp, hext, mkSyncCommit]
    have hrest : ∀ x ∈ rest, refOk src x := fun x hx => h x (by simp [hx])
    rw [commitAll_cons_ok src cI r rest tS cS repo sd q hd hq, hop]
    show commitAll src cI rest ("tree#" ++ toString repo.counter)
        ("commit#" ++ toString (repo.counter + 1))
        ⟨mkSyncCommit cI (buildSubmission src r sd q) cS repo.counter :: repo.branch,
         (⟨"tree#" ++ toString repo.counter, tS,
           mkTreeData (buildSubmission src r sd q) ext⟩ : GitTree) :: repo.trees,
         repo.counter + 2⟩ = _
    rw [ih _ _ _ hrest]
    have hchain : syncChain cI (((r :: rest)).map (subOf src)) cS repo.counter =
        mkSyncCommit cI (buildSubmission src r sd q) cS repo.counter ::
          syncChain cI (rest.map (subOf src))
            ("commit#" ++ toString (repo.counter + 1)) (repo.counter + 2) := by
      simp [syncChain, hsub, mkSyncCommit]
    have htrees : syncTrees (((r :: rest)).map (subOf src)) tS repo.counter =
        (⟨"tree#" ++ toString repo.counter, tS,
          mkTreeData (buildSubmission src r sd q) ext⟩ : GitTree) ::
          syncTrees (rest.map (subOf src))
            ("tree#" ++ toString repo.counter) (repo.counter + 2) := by
      simp only [List.map_cons, syncTrees, hsub, hext, Option.getD_some]
    rw [hchain, htrees]
    simp [List.reverse_cons, List.append_assoc]
    omega

/-- The commit loop when every ref before `bad` succeeds and the language of
`bad` is unregistered: the run ends with the extension error, the branch
holds exactly the commits of the refs before `bad` (newest first) on top of
the previous history, one tree per successful commit was created and none
for `bad`. -/
theorem commitAll_abort (src : SyncSource) (cI : Author) :
    ∀ (good : List SubmissionRef) (bad : SubmissionRef) (rest : List SubmissionRef)
      (tS cS : String) (repo : GitRepo),
    (∀ r ∈ good, refOk src r) → refLangMissing src bad →
    commitAll src cI (good ++ bad :: rest) tS cS repo =
      ⟨⟨(syncChain cI (good.map (subOf src)) cS repo.counter).reverse ++ repo.branch,
        (syncTrees (good.map (subOf src)) tS repo.counter).reverse ++ repo.trees,
        repo.counter + 2 * good.length⟩,
       some ("Language " ++ (subOf src bad).lang ++
         " does not have a registered extension.")⟩ := by
  intro good
  induction good with
  | nil =>
    intro bad rest tS cS repo hgood hbad
    obtain ⟨sd, q, hd, hq, hnone⟩ := refLangMissing_elim src bad hbad
    have hsub : subOf src bad = buildSubmission src bad sd q := subOf_eq src bad sd q hd hq
    have hop : commitOp cI tS cS (buildSubmission src bad sd q) repo =
        .error ("Language " ++ (buildSubmission src bad sd q).lang ++
          " does not have a registered extension.") := by
      simp [commitOp, hnone]
    simp only [List.nil_append]
    rw [commitAll_cons_ok src cI bad rest tS cS repo sd q hd hq, hop]
    simp [syncChain, syncTrees, hsub]
  | cons r grest ih =>
    intro bad rest tS cS repo hgood hbad
    obtain ⟨sd, q, ext, hd, hq, hext⟩ := refOk_elim src r (hgood r (by simp))
    have hsub : subOf src r = buildSubmission src r sd q := subOf_eq src r sd q hd hq
    have hgetD : (LANG_TO_EXTENSION ((subOf src r).lang)).getD "" = ext := by
      rw [hsub, hext]
      rfl
    have hop : commitOp cI tS cS (buildSubmission src r sd q) repo =
        .ok ("tree#" ++ toString repo.counter, "commit#" ++ toString (repo.counter + 1),
          ⟨mkSyncCommit cI (buildSubmission src r sd q) cS repo.counter :: repo.branch,
           (⟨"tree#" ++ toString repo.counter, tS,
             mkTreeData (buildSubmission src r sd q) ext⟩ : GitTree) :: repo.trees,
           repo.counter + 2⟩) := by
      simp [commitOp, hext, mkSyncCommit]
    have hgrest : ∀ x ∈ grest, refOk src x := fun x hx => hgood x (by simp [hx])
    simp only [List.cons_append]
    rw [commitAll_cons_ok src cI r (grest ++ bad :: rest) tS cS repo sd q hd hq, hop]
    show commitAll src cI (grest ++ bad :: rest) ("tree#" ++ toString repo.counter)
        ("commit#" ++ toString (repo.counter + 1))
        ⟨mkSyncCommit cI (buildSubmission src r sd q) cS repo.counter :: repo.branch,
         (⟨"tree#" ++ toString repo.counter, tS,
           mkTreeData (buildSubmission src r sd q) ext⟩ : GitTree) :: repo.trees,
         repo.counter + 2⟩ = _
    rw [ih bad rest _ _ _ hgrest hbad]
    have hchain : syncChain cI (((r :: grest)).map (subOf src)) cS repo.counter =
        mkSyncCommit cI (buildSubmission src r sd q) cS repo.counter ::
          syncChain cI (grest.map (subOf src))
            ("commit#" ++ toString (repo.counter + 1)) (repo.counter + 2) := by
      simp [syncChain, hsub, mkSyncCommit]
    have htrees : syncTrees (((r :: grest)).map (subOf src)) tS repo.counter =
        (⟨"tree#" ++ toString repo.counter, tS,
          mkTreeData (buildSubmission src r sd q) ext⟩ : GitTree) ::
          syncTrees (grest.map (subOf src))
            ("tree#" ++ toString repo.counter) (repo.counter + 2) := by
      simp only [List.map_cons, syncTrees, hsub, hext, Option.getD_some]
    rw [hchain, htrees]
    simp [List.reverse_cons, List.append_assoc]
    omega

theorem take_hundred_cons {α : Type} (a : α) (l : List α) :
    (a :: l).take 100 = a :: l.take 99 := rfl

/-- A page whose entries are all above the checkpoint and all accepted is
collected in full. -/
theorem collect_full_page (ts : Nat) (entries : List ListedSubmission)
    (hacc : ∀ e ∈ entries, e.statusDisplay = "Accepted")
    (habove : ∀ e ∈ entries, ts < e.timestamp) :
    ((entries.takeWhile fun s => decide (ts < s.timestamp)).filter
      fun s => decide (s.statusDisplay = "Accepted")).map refOf = entries.map refOf := by
  have h1 : entries.takeWhile (fun s => decide (ts < s.timestamp)) = entries := by
    have := takeWhile_append_all (p := fun s => decide (ts < s.timestamp)) entries []
      (fun x hx => by simp [habove x hx])
    simpa using this
  rw [h1, List.filter_eq_self.mpr (fun x hx => by simp [hacc x hx])]

/-- Unfolding of the orchestrator through a successful listing. -/
theorem sync_eq (src : SyncSource) (repo : GitRepo) (c0 : RepoCommit)
    (cs : List RepoCommit) (ts : Nat) (cI : Author) (subs : List SubmissionRef)
    (htake : repo.branch.take 100 = c0 :: cs)
    (hcp : resolveCheckpoint (c0 :: cs) = some (ts, cI))
    (hlist : runListing src.pages ts [] true = .ok subs) :
    sync src repo = commitAll src cI subs.reverse c0.treeSha c0.sha repo := by
  simp only [sync, htake, hcp, hlist]

end Lemmas

section Claims

/-- C10: the engine requires the target repository to hold at least one
commit.  Checkpoint resolution yields nothing on an empty fetched commit
list (the source unconditionally reads the author of its last element), and
`sync` on a repository with empty history ends with the type error before
any submission is fetched or committed, leaving the repository unchanged. -/
theorem C10_empty_history_unhandled (src : SyncSource) (repo : GitRepo)
    (h : repo.branch = []) :
    resolveCheckpoint repo.branch = none ∧
    sync src repo = ⟨repo, some typeErrorMsg⟩ := by
  constructor
  · rw [h]
    rfl
  · simp [sync, h]

/-- Witness for C10 at the concrete empty repository. -/
theorem C10_witness :
    resolveCheckpoint (GitRepo.mk [] [] 0).branch = none ∧
    sync srcW ⟨[], [], 0⟩ = ⟨⟨[], [], 0⟩, some typeErrorMsg⟩ :=
  C10_empty_history_unhandled srcW ⟨[], [], 0⟩ rfl

/-- C9: the sync marker is the single literal bracket character: the marker
constant is that literal, every commit the engine creates has a message
beginning with it, the checkpoint scan classifies a commit as a sync commit
exactly by that prefix test, and consequently any pre-existing commit whose
message happens to begin with the bracket is treated as a sync checkpoint. -/
theorem C9_sync_marker_is_bracket :
    COMMIT_MESSAGE = "[" ∧
    (∀ (cI : Author) (tS cS : String) (s : Submission) (repo : GitRepo)
        (t c : String) (repo2 : GitRepo),
      commitOp cI tS cS s repo = .ok (t, c, repo2) →
      ∃ cm tl, repo2.branch = cm :: tl ∧
        strStartsWith cm.message COMMIT_MESSAGE = true) ∧
    (∀ commits : List RepoCommit,
      findSyncCommit commits =
        commits.find? (fun c => strStartsWith c.message COMMIT_MESSAGE)) ∧
    (∀ (c : RepoCommit) (tl : List RepoCommit),
      strStartsWith c.message COMMIT_MESSAGE = true →
      resolveCheckpoint (c :: tl) = some (c.committerDateMs / 1000, c.author)) := by
  refine ⟨rfl, ?_, fun _ => rfl, ?_⟩
  · intro cI tS cS s repo t c repo2 hok
    cases hext : LANG_TO_EXTENSION s.lang with
    | none => simp [commitOp, hext] at hok
    | some ext =>
      simp only [commitOp, hext, Except.ok.injEq, Prod.mk.injEq] at hok
      obtain ⟨-, -, hrepo⟩ := hok
      refine ⟨mkSyncCommit cI s cS repo.counter, repo.branch, ?_, ?_⟩
      · rw [← hrepo]
      · exact mkSyncCommit_marker cI s cS repo.counter
  · intro c tl hc
    exact resolveCheckpoint_of_find (c :: tl) (by simp) c
      (by rw [findSyncCommit]; exact List.find?_cons_of_pos _ hc)

/-- Witness for C9: a concrete successful commit operation yields a
marker-prefixed head commit, and a concrete pre-existing bracket-message
commit is taken as the checkpoint. -/
theorem C9_witness :
    (∃ cm tl,
      (GitRepo.mk (mkSyncCommit authorW subW1 "base" 0 :: repoW.branch)
        ((⟨"tree#0", "basetree", mkTreeData subW1 "go"⟩ : GitTree) :: repoW.trees) 2).branch
        = cm :: tl ∧
      strStartsWith cm.message COMMIT_MESSAGE = true) ∧
    resolveCheckpoint [bracketCommitW, baseCommitW] = some (5, bracketCommitW.author) :=
  ⟨C9_sync_marker_is_bracket.2.1 authorW "basetree" "base" subW1 repoW
      "tree#0" "commit#1" _ rfl,
   C9_sync_marker_is_bracket.2.2.2 bracketCommitW [baseCommitW] (by decide)⟩

/-- C3: scanning the fetched commits newest to oldest, the first commit
whose message starts with the sync marker yields the checkpoint: its
committer date in epoch seconds and its author, and the scan stops there;
with no marked commit the checkpoint is timestamp 0 with the oldest fetched
author.  A marked third-newest commit with committer date
2023-01-01T00:00:00Z yields resume timestamp 1672531200 and that commit's
author. -/
theorem C3_checkpoint_extraction :
    (∀ (pre : List RepoCommit) (c : RepoCommit) (post : List RepoCommit),
      (∀ x ∈ pre, strStartsWith x.message COMMIT_MESSAGE = false) →
      strStartsWith c.message COMMIT_MESSAGE = true →
      resolveCheckpoint (pre ++ c :: post) =
        some (c.committerDateMs / 1000, c.author)) ∧
    (∀ (commits : List RepoCommit) (hne : commits ≠ []),
      (∀ x ∈ commits, strStartsWith x.message COMMIT_MESSAGE = false) →
      resolveCheckpoint commits = some (0, (commits.getLast hne).author)) ∧
    epochMillisOfUtc 2023 1 1 0 0 0 / 1000 = 1672531200 ∧
    resolveCheckpoint [plainCommitW 1, plainCommitW 2, markedCommitW, plainCommitW 4] =
      some (1672531200, markedCommitW.author) := by
  refine ⟨?_, ?_, by decide, by decide⟩
  · intro pre c post hpre hc
    exact resolveCheckpoint_of_find _ (by simp) c (findSyncCommit_append pre c post hpre hc)
  · intro commits hne h
    exact resolveCheckpoint_no_marker commits hne h

/-- Witness for C3 at concrete commit lists. -/
theorem C3_witness :
    resolveCheckpoint ([plainCommitW 1] ++ markedCommitW :: [plainCommitW 4]) =
      some (markedCommitW.committerDateMs / 1000, markedCommitW.author) ∧
    resolveCheckpoint [plainCommitW 1, plainCommitW 2] =
      some (0, ([plainCommitW 1, plainCommitW 2].getLast (by decide)).author) :=
  ⟨C3_checkpoint_extraction.1 [plainCommitW 1] markedCommitW [plainCommitW 4]
      (by decide) (by decide),
   C3_checkpoint_extraction.2.1 [plainCommitW 1, plainCommitW 2] (by decide) (by decide)⟩

/-- C2: consuming a page against the checkpoint, the first entry at or below
the checkpoint stops consumption of the page and of every further page; a
non-accepted entry above the checkpoint is skipped without stopping; every
accepted entry above the checkpoint is appended as its id/slug ref.  For
timestamps [50, 40, 30, 20] and checkpoint 30 exactly the 50 and 40 entries
are considered. -/
theorem C2_listing_consumption_filter :
    (∀ (page : List ListedSubmission) (acc : List SubmissionRef) (ts : Nat),
      addToSubmissions page acc ts =
        (acc ++ ((page.takeWhile fun s => decide (ts < s.timestamp)).filter
            fun s => decide (s.statusDisplay = "Accepted")).map refOf,
          page.all fun s => decide (ts < s.timestamp))) ∧
    (∀ (page : Page) (rest : List (Nat → Except String Page)) (ts : Nat)
        (acc : List SubmissionRef) (isFirst : Bool),
      page.submissions.all (fun s => decide (ts < s.timestamp)) = false →
      runListing ((fun _ => .ok page) :: rest) ts acc isFirst =
        .ok (acc ++ ((page.submissions.takeWhile fun s => decide (ts < s.timestamp)).filter
          fun s => decide (s.statusDisplay = "Accepted")).map refOf)) ∧
    runListing [fun _ => .ok ⟨[f50, f40, f30, f20], true⟩,
        fun _ => .ok ⟨[f20], true⟩] 30 [] true = .ok [refOf f50, refOf f40] ∧
    runListing [fun _ => .ok ⟨[f50, f45, f40, f30, f20], true⟩] 30 [] true =
      .ok [refOf f50, refOf f40] :=
  ⟨addToSubmissions_eq, runListing_cons_stop, by decide, by decide⟩

/-- Witness for C2 at the concrete timestamp pattern of the specification. -/
theorem C2_witness :
    addToSubmissions [f50, f45, f40, f30, f20] [] 30 = ([refOf f50, refOf f40], false) ∧
    runListing [fun _ => .ok ⟨[f50, f40, f30, f20], true⟩,
        fun _ => .ok ⟨[f20], true⟩] 30 [] true = .ok [refOf f50, refOf f40] :=
  ⟨(C2_listing_consumption_filter.1 [f50, f45, f40, f30, f20] [] 30).trans (by decide),
   (C2_listing_consumption_filter.2.1 ⟨[f50, f40, f30, f20], true⟩
      [fun _ => .ok ⟨[f20], true⟩] 30 [] true (by decide)).trans (by decide)⟩

/-- C7: the retry wrapper runs the operation once and returns on success; on
persistent failure it waits `3 ^ k` seconds (`3 ^ k * 1000` milliseconds)
before retry `k + 1` and re-raises the failure of the final attempt when the
budget is exhausted; the first listing request of a run carries budget 0 (its
first error is fatal at once), every later listing request carries budget 5. -/
theorem C7_retry_policy_mechanics :
    (∀ (α : Type) (op : Nat → Except String α) (m : Nat) (a : α),
      op 0 = .ok a → withRetry op m 0 = (.ok a, [])) ∧
    (∀ (α : Type) (op : Nat → Except String α) (m : Nat) (e : Nat → String),
      (∀ k, k ≤ m → op k = .error (e k)) →
      withRetry op m 0 =
        (.error (e m), (List.range m).map fun k => 3 ^ k * 1000)) ∧
    (∀ (p0 : Nat → Except String Page) (rest : List (Nat → Except String Page))
        (ts : Nat) (acc : List SubmissionRef) (err : String),
      p0 0 = .error err →
      runListing (p0 :: rest) ts acc true = .error err) ∧
    (∀ (p1 : Page) (q : Nat → Except String Page) (ts : Nat)
        (acc : List SubmissionRef) (e : Nat → String),
      (∀ s ∈ p1.submissions, ts < s.timestamp) → p1.hasNext = true →
      (∀ k, k ≤ 5 → q k = .error (e k)) →
      runListing [fun _ => .ok p1, q] ts acc true = .error (e 5)) := by
  refine ⟨fun α op m a h => withRetry_ok op m a h,
    fun α op m e h => withRetry_fail op m e h, ?_, ?_⟩
  · intro p0 rest ts acc err h
    have hw : withRetry p0 0 0 = (.error err, []) := by
      rw [withRetry, withRetryAux.eq_def]
      simp [h]
    simp [runListing, pageRetryBudget, hw]
  · intro p1 q ts acc e hall hnext hfail
    have hallb : p1.submissions.all (fun s => decide (ts < s.timestamp)) = true := by
      rw [List.all_eq_true]
      intro x hx
      simp [hall x hx]
    rw [runListing_cons_continue p1 [q] ts acc true hallb hnext]
    have hw := withRetry_fail q 5 e hfail
    simp [runListing, pageRetryBudget, hw]

/-- Witness for C7 at concrete operations: an immediately successful call, a
persistently failing call with its five backoff waits, a first listing
request failing fatally at once, and a second listing request re-raising the
error of its sixth attempt. -/
theorem C7_witness :
    withRetry (fun _ => (.ok (⟨[], false⟩ : Page) : Except String Page)) 5 0 =
      (.ok ⟨[], false⟩, []) ∧
    withRetry pageFailOp 5 0 =
      (.error ("listing failed at attempt " ++ toString 5),
        (List.range 5).map fun k => 3 ^ k * 1000) ∧
    runListing [pageFailOp] 30 [] true = .error ("listing failed at attempt " ++ toString 0) ∧
    runListing [fun _ => .ok ⟨[f50], true⟩, pageFailOp] 30 [] true =
      .error ("listing failed at attempt " ++ toString 5) :=
  ⟨C7_retry_policy_mechanics.1 Page (fun _ => .ok ⟨[], false⟩) 5 ⟨[], false⟩ rfl,
   C7_retry_policy_mechanics.2.1 Page pageFailOp 5
     (fun k => "listing failed at attempt " ++ toString k) (fun k _ => rfl),
   C7_retry_policy_mechanics.2.2.1 pageFailOp [] 30 []
     ("listing failed at attempt " ++ toString 0) rfl,
   C7_retry_policy_mechanics.2.2.2 ⟨[f50], true⟩ pageFailOp 30 []
     (fun k => "listing failed at attempt " ++ toString k)
     (by decide) rfl (fun k _ => rfl)⟩

/-- C6 counterexample: the question lookup is not executed under the retry
budget and a persistent failure does not surface as the original error: an
operation failing only on its first attempt (which any retry would rescue)
yields no data even though the retry wrapper with the detail-lookup budget
succeeds on it, and a persistently failing operation also yields no data
instead of re-raising its failure. -/
theorem C6_counterexample :
    getQuestionData qFlakyOp = none ∧
    (withRetry qFlakyOp 5 0).1 = .ok qW1 ∧
    getQuestionData qFailOp = none := ⟨rfl, by decide, rfl⟩

/-- C6 amended: question lookups are executed with a single attempt and no
retry (the outcome depends only on attempt 0); a failing lookup is caught
and yields no response instead of propagating its error; a successful one
returns its response; and in the commit loop a submission whose question
lookup failed aborts the run with the type error from dereferencing the
missing response, leaving the repository state unchanged. -/
theorem C6_question_lookup_single_attempt :
    (∀ op op2 : Nat → Except String Question, op 0 = op2 0 →
      getQuestionData op = getQuestionData op2) ∧
    (∀ (op : Nat → Except String Question) (e : String),
      op 0 = .error e → getQuestionData op = none) ∧
    (∀ (op : Nat → Except String Question) (q : Question),
      op 0 = .ok q → getQuestionData op = some q) ∧
    (∀ (src : SyncSource) (cI : Author) (r : SubmissionRef)
        (rest : List SubmissionRef) (tS cS : String) (repo : GitRepo)
        (sd : SubmissionDetails) (e : String),
      detailOf src r = .ok sd → src.questions r.titleSlug 0 = .error e →
      commitAll src cI (r :: rest) tS cS repo = ⟨repo, some typeErrorMsg⟩) := by
  refine ⟨?_, ?_, ?_, ?_⟩
  · intro op op2 h
    simp only [getQuestionData, h]
  · intro op e h
    simp only [getQuestionData, h]
  · intro op q h
    simp only [getQuestionData, h]
  · intro src cI r rest tS cS repo sd e hd hq
    have hqn : questionOf src r = none := by
      simp only [questionOf, getQuestionData, hq]
    rw [commitAll_cons, hd, hqn]

/-- Witness for the amended C6 at concrete operations and a concrete run. -/
theorem C6_witness :
    getQuestionData qFailOp = getQuestionData (fun _ => .error "network down") ∧
    getQuestionData qFailOp = none ∧
    getQuestionData (fun _ => .ok qW1) = some qW1 ∧
    commitAll srcQFW authorW [refOf eW1] "basetree" "base" repoW =
      ⟨repoW, some typeErrorMsg⟩ :=
  ⟨C6_question_lookup_single_attempt.1 qFailOp (fun _ => .error "network down") rfl,
   C6_question_lookup_single_attempt.2.1 qFailOp "network down" rfl,
   C6_question_lookup_single_attempt.2.2.1 (fun _ => .ok qW1) qW1 rfl,
   C6_question_lookup_single_attempt.2.2.2 srcQFW authorW (refOf eW1) []
     "basetree" "base" repoW sdW1 "network down" rfl rfl⟩

/-- C8: a submission whose language is not in the extension table makes the
commit operation fail before creating any tree, commit, or ref update, and
in the commit loop such a submission aborts the run with every previously
created commit and tree intact and the branch pointer at the last successful
commit. -/
theorem C8_extension_mapping_atomicity :
    (∀ (cI : Author) (tS cS : String) (s : Submission) (repo : GitRepo),
      LANG_TO_EXTENSION s.lang = none →
      commitOp cI tS cS s repo =
        .error ("Language " ++ s.lang ++ " does not have a registered extension.")) ∧
    (∀ (src : SyncSource) (cI : Author) (good : List SubmissionRef)
        (bad : SubmissionRef) (rest : List SubmissionRef) (tS cS : String)
        (repo : GitRepo),
      (∀ r ∈ good, refOk src r) → refLangMissing src bad →
      commitAll src cI (good ++ bad :: rest) tS cS repo =
        ⟨⟨(syncChain cI (good.map (subOf src)) cS repo.counter).reverse ++ repo.branch,
          (syncTrees (good.map (subOf src)) tS repo.counter).reverse ++ repo.trees,
          repo.counter + 2 * good.length⟩,
         some ("Language " ++ (subOf src bad).lang ++
           " does not have a registered extension.")⟩) := by
  refine ⟨?_, commitAll_abort⟩
  intro cI tS cS s repo h
  simp [commitOp, h]

/-- Witness for C8: the concrete rust submission fails the commit operation,
and the concrete run with rust as second submission keeps exactly the first
commit. -/
theorem C8_witness :
    commitOp authorW "basetree" "base" subRustW repoW =
      .error ("Language " ++ subRustW.lang ++ " does not have a registered extension.") ∧
    commitAll srcBadW authorW ([refOf eW1] ++ refOf eW2 :: [refOf eW3])
        "basetree" "base" repoW =
      ⟨⟨(syncChain authorW ([refOf eW1].map (subOf srcBadW)) "base" repoW.counter).reverse
          ++ repoW.branch,
        (syncTrees ([refOf eW1].map (subOf srcBadW)) "basetree" repoW.counter).reverse
          ++ repoW.trees,
        repoW.counter + 2 * [refOf eW1].length⟩,
       some ("Language " ++ (subOf srcBadW (refOf eW2)).lang ++
         " does not have a registered extension.")⟩ :=
  ⟨C8_extension_mapping_atomicity.1 authorW "basetree" "base" subRustW repoW (by decide),
   C8_extension_mapping_atomicity.2 srcBadW authorW [refOf eW1] (refOf eW2) [refOf eW3]
     "basetree" "base" repoW (by decide) (by decide)⟩

/-- C4: for pending accepted submissions with strictly ascending (distinct)
timestamps, `sync` creates exactly one commit per submission, on the branch
in that ascending order, each commit's parent the previously created commit
(the first one's parent the branch head at run start), each commit's author
and committer date equal to its own submission's timestamp as an instant,
and author and committer both the recovered identity. -/
theorem C4_ordering_and_construction
    (src : SyncSource) (repo : GitRepo) (c0 : RepoCommit) (cs : List RepoCommit)
    (ts0 : Nat) (cI0 : Author) (entries : List ListedSubmission)
    (refs : List SubmissionRef) (chain : List RepoCommit)
    (htake : repo.branch.take 100 = c0 :: cs)
    (hcp : resolveCheckpoint (c0 :: cs) = some (ts0, cI0))
    (hpages : src.pages = [fun _ => .ok ⟨entries, false⟩])
    (hacc : ∀ e ∈ entries, e.statusDisplay = "Accepted")
    (habove : ∀ e ∈ entries, ts0 < e.timestamp)
    (hrefs : refs = (entries.map refOf).reverse)
    (hok : ∀ r ∈ refs, refOk src r)
    (hasc : (refs.map fun r => (subOf src r).timestamp).Chain' (· < ·))
    (hchain : chain = syncChain cI0 (refs.map (subOf src)) c0.sha repo.counter) :
    sync src repo =
      ⟨⟨chain.reverse ++ repo.branch,
        (syncTrees (refs.map (subOf src)) c0.treeSha repo.counter).reverse ++ repo.trees,
        repo.counter + 2 * entries.length⟩, none⟩ ∧
    chain.length = entries.length ∧
    chain.map (fun c => c.authorDateMs) =
      refs.map (fun r => (subOf src r).timestamp * 1000) ∧
    chain.map (fun c => c.committerDateMs) =
      refs.map (fun r => (subOf src r).timestamp * 1000) ∧
    (∀ c ∈ chain, c.author = cI0 ∧ c.committer = cI0 ∧
      strStartsWith c.message COMMIT_MESSAGE = true) ∧
    chainLinked c0.sha chain ∧
    (chain.map fun c => c.committerDateMs).Chain' (· < ·) := by
  subst hrefs hchain
  have hsubs : runListing src.pages ts0 [] true = .ok (entries.map refOf) := by
    rw [hpages, runListing_cons_last ⟨entries, false⟩ [] ts0 [] true rfl]
    simp [collect_full_page ts0 entries hacc habove]
  have hsync := sync_eq src repo c0 cs ts0 cI0 (entries.map refOf) htake hcp hsubs
  have hca := commitAll_ok src cI0 ((entries.map refOf).reverse) c0.treeSha c0.sha repo hok
  have hlen : ((entries.map refOf).reverse).length = entries.length := by simp
  refine ⟨?_, ?_, ?_, ?_, ?_, ?_, ?_⟩
  · rw [hsync, hca, hlen]
  · rw [syncChain_length]
    simp
  · rw [syncChain_authorDates]
    simp [List.map_map, Function.comp]
  · rw [syncChain_committerDates]
    simp [List.map_map, Function.comp]
  · intro c hc
    exact syncChain_identity cI0 _ _ _ c hc
  · exact syncChain_linked cI0 _ _ _
  · rw [syncChain_committerDates]
    have hmm : (((entries.map refOf).reverse).map (subOf src)).map
        (fun s => s.timestamp * 1000) =
        (((entries.map refOf).reverse).map fun r => (subOf src r).timestamp).map
          (fun t => t * 1000) := by
      simp [List.map_map, Function.comp]
    rw [hmm, List.chain'_map]
    exact hasc.imp (fun a b h => by omega)

/-- Witness for C4 at the concrete three-submission run. -/
theorem C4_witness :
    (sync srcW repoW).error = none ∧ (sync srcW repoW).repo.branch.length = 4 := by
  have h := C4_ordering_and_construction srcW repoW baseCommitW [] 0 authorW
    [eW3, eW2, eW1] (([eW3, eW2, eW1].map refOf).reverse)
    (syncChain authorW ((([eW3, eW2, eW1].map refOf).reverse).map (subOf srcW))
      baseCommitW.sha repoW.counter)
    rfl (by decide) rfl (by decide) (by decide) rfl (by decide)
    (by show List.Chain' (fun a b => a < b) [100, 200, 300]
        simp [List.chain'_cons]) rfl
  rw [h.1]
  exact ⟨rfl, by decide⟩

/-- C5: running the orchestrator twice with no new accepted submissions
between the runs produces zero new commits on the second run: the second
run's checkpoint, recovered from the newest sync commit, equals the newest
synced submission's timestamp, the listing stops at its first entry, the
pending list is empty, and the repository is returned unchanged. -/
theorem C5_idempotence
    (src1 src2 : SyncSource) (repo : GitRepo) (c0 : RepoCommit) (cs : List RepoCommit)
    (ts0 : Nat) (cI0 : Author) (e0 : ListedSubmission) (erest : List ListedSubmission)
    (hn : Bool)
    (htake : repo.branch.take 100 = c0 :: cs)
    (hcp : resolveCheckpoint (c0 :: cs) = some (ts0, cI0))
    (hpages1 : src1.pages = [fun _ => .ok ⟨e0 :: erest, false⟩])
    (hacc : ∀ e ∈ e0 :: erest, e.statusDisplay = "Accepted")
    (habove : ∀ e ∈ e0 :: erest, ts0 < e.timestamp)
    (hok : ∀ r ∈ ((e0 :: erest).map refOf).reverse, refOk src1 r)
    (hts : (subOf src1 (refOf e0)).timestamp = e0.timestamp)
    (hpages2 : src2.pages = [fun _ => .ok ⟨e0 :: erest, hn⟩]) :
    (sync src1 repo).error = none ∧
    sync src2 (sync src1 repo).repo = ⟨(sync src1 repo).repo, none⟩ := by
  have hsubs1 : runListing src1.pages ts0 [] true = .ok ((e0 :: erest).map refOf) := by
    rw [hpages1, runListing_cons_last ⟨e0 :: erest, false⟩ [] ts0 [] true rfl]
    simp [collect_full_page ts0 (e0 :: erest) hacc habove]
  have hsync1 := sync_eq src1 repo c0 cs ts0 cI0 ((e0 :: erest).map refOf) htake hcp hsubs1
  have hca1 := commitAll_ok src1 cI0 (((e0 :: erest).map refOf).reverse)
    c0.treeSha c0.sha repo hok
  have hrun1 : sync src1 repo =
      ⟨⟨(syncChain cI0 ((((e0 :: erest).map refOf).reverse).map (subOf src1))
            c0.sha repo.counter).reverse ++ repo.branch,
        (syncTrees ((((e0 :: erest).map refOf).reverse).map (subOf src1))
            c0.treeSha repo.counter).reverse ++ repo.trees,
        repo.counter + 2 * (((e0 :: erest).map refOf).reverse).length⟩, none⟩ :=
    hsync1.trans hca1
  have hsplit : ((((e0 :: erest).map refOf).reverse).map (subOf src1)) =
      (((erest.map refOf).reverse).map (subOf src1)) ++ [subOf src1 (refOf e0)] := by
    simp
  obtain ⟨p, c2, hlast⟩ := syncChain_getLast cI0
    (((erest.map refOf).reverse).map (subOf src1)) (subOf src1 (refOf e0))
    c0.sha repo.counter
  have hchainlast : (syncChain cI0 ((((e0 :: erest).map refOf).reverse).map (subOf src1))
      c0.sha repo.counter).getLast? = some (mkSyncCommit cI0 (subOf src1 (refOf e0)) p c2) := by
    rw [hsplit]
    exact hlast
  have hhead : (syncChain cI0 ((((e0 :: erest).map refOf).reverse).map (subOf src1))
      c0.sha repo.counter).reverse.head? =
      some (mkSyncCommit cI0 (subOf src1 (refOf e0)) p c2) := by
    rw [List.head?_reverse]
    exact hchainlast
  obtain ⟨hd, rtail, hcr⟩ : ∃ hd rtail,
      (syncChain cI0 ((((e0 :: erest).map refOf).reverse).map (subOf src1))
        c0.sha repo.counter).reverse = hd :: rtail := by
    cases hcr2 : (syncChain cI0 ((((e0 :: erest).map refOf).reverse).map (subOf src1))
        c0.sha repo.counter).reverse with
    | nil => rw [hcr2] at hhead; simp at hhead
    | cons a b => exact ⟨a, b, rfl⟩
  have hhd : hd = mkSyncCommit cI0 (subOf src1 (refOf e0)) p c2 := by
    rw [hcr] at hhead
    simpa using hhead
  have hbranch : ((sync src1 repo).repo).branch = hd :: (rtail ++ repo.branch) := by
    rw [hrun1]
    show (syncChain cI0 ((((e0 :: erest).map refOf).reverse).map (subOf src1))
        c0.sha repo.counter).reverse ++ repo.branch = _
    rw [hcr]
    rfl
  have htake2 : ((sync src1 repo).repo).branch.take 100 =
      hd :: ((rtail ++ repo.branch).take 99) := by
    rw [hbranch]
    exact take_hundred_cons hd (rtail ++ repo.branch)
  have hmark : strStartsWith hd.message COMMIT_MESSAGE = true := by
    rw [hhd]
    exact mkSyncCommit_marker cI0 (subOf src1 (refOf e0)) p c2
  have hdc : hd.committerDateMs / 1000 = e0.timestamp := by
    rw [hhd]
    show (subOf src1 (refOf e0)).timestamp * 1000 / 1000 = e0.timestamp
    rw [Nat.mul_div_cancel _ (by norm_num), hts]
  have hauthor : hd.author = cI0 := by
    rw [hhd]
    rfl
  have hcp2 : resolveCheckpoint (hd :: ((rtail ++ repo.branch).take 99)) =
      some (e0.timestamp, cI0) := by
    have h1 := resolveCheckpoint_of_find (hd :: ((rtail ++ repo.branch).take 99))
      (by simp) hd (by rw [findSyncCommit]; exact List.find?_cons_of_pos _ hmark)
    rw [h1, hdc, hauthor]
  have hstop2 : (e0 :: erest).all (fun s => decide (e0.timestamp < s.timestamp)) = false := by
    simp [List.all_cons]
  have hsubs2 : runListing src2.pages e0.timestamp [] true = .ok [] := by
    rw [hpages2, runListing_cons_stop ⟨e0 :: erest, hn⟩ [] e0.timestamp [] true hstop2]
    simp [List.takeWhile_cons]
  have hsync2 := sync_eq src2 ((sync src1 repo).repo) hd ((rtail ++ repo.branch).take 99)
    e0.timestamp cI0 [] htake2 hcp2 hsubs2
  refine ⟨by rw [hrun1], ?_⟩
  rw [hsync2]
  simp [commitAll]

/-- Witness for C5 at the concrete three-submission run executed twice. -/
theorem C5_witness :
    (sync srcW repoW).error = none ∧
    sync srcW (sync srcW repoW).repo = ⟨(sync srcW repoW).repo, none⟩ :=
  C5_idempotence srcW srcW repoW baseCommitW [] 0 authorW eW3 [eW2, eW1] false
    rfl (by decide) rfl (by decide) (by decide) (by decide) (by decide) rfl

/-- C1: resume correctness.  If a run aborts (here: on an unregistered
language) after committing the oldest part of the pending oldest-first list,
the created commits stay on the branch on top of the prior history; the
checkpoint recovered by the next invocation from the most recent sync-marked
commit equals the timestamp of the last successfully committed submission
(with the author identity preserved); and the re-invocation commits exactly
the remaining newer submissions, recommitting none of the already-committed
ones, because the listing filter cuts at that checkpoint. -/
theorem C1_resume_correctness
    (src1 src2 : SyncSource) (repo : GitRepo) (c0 : RepoCommit) (cs : List RepoCommit)
    (ts0 : Nat) (cI0 : Author)
    (newER oldRest : List ListedSubmission) (e0k : ListedSubmission)
    (badE : ListedSubmission) (badRest : List SubmissionRef)
    (htake : repo.branch.take 100 = c0 :: cs)
    (hcp : resolveCheckpoint (c0 :: cs) = some (ts0, cI0))
    (hpages1 : src1.pages = [fun _ => .ok ⟨newER ++ e0k :: oldRest, false⟩])
    (hpages2 : src2.pages = [fun _ => .ok ⟨newER ++ e0k :: oldRest, false⟩])
    (hacc : ∀ e ∈ newER ++ e0k :: oldRest, e.statusDisplay = "Accepted")
    (habove : ∀ e ∈ newER ++ e0k :: oldRest, ts0 < e.timestamp)
    (hrevN : (newER.map refOf).reverse = refOf badE :: badRest)
    (hok1 : ∀ r ∈ (oldRest.map refOf).reverse ++ [refOf e0k], refOk src1 r)
    (hbad : refLangMissing src1 (refOf badE))
    (hts1 : (subOf src1 (refOf e0k)).timestamp = e0k.timestamp)
    (hsep : ∀ e ∈ newER, e0k.timestamp < e.timestamp)
    (hok2 : ∀ r ∈ refOf badE :: badRest, refOk src2 r) :
    (sync src1 repo).error =
      some ("Language " ++ (subOf src1 (refOf badE)).lang ++
        " does not have a registered extension.") ∧
    (sync src1 repo).repo.branch =
      (syncChain cI0 (((oldRest.map refOf).reverse ++ [refOf e0k]).map (subOf src1))
        c0.sha repo.counter).reverse ++ repo.branch ∧
    resolveCheckpoint ((sync src1 repo).repo.branch.take 100) =
      some (e0k.timestamp, cI0) ∧
    ∃ (chain2 : List RepoCommit) (trees2 : List GitTree),
      sync src2 (sync src1 repo).repo =
        ⟨⟨chain2.reverse ++ (sync src1 repo).repo.branch,
          trees2 ++ (sync src1 repo).repo.trees,
          (sync src1 repo).repo.counter + 2 * newER.length⟩, none⟩ ∧
      chain2.length = newER.length ∧
      trees2.length = newER.length ∧
      chain2.map (fun c => c.committerDateMs) =
        ((newER.map refOf).reverse).map (fun r => (subOf src2 r).timestamp * 1000) ∧
      (∀ c ∈ chain2, c.author = cI0 ∧ c.committer = cI0 ∧
        strStartsWith c.message COMMIT_MESSAGE = true) := by
  have hsubs1 : runListing src1.pages ts0 [] true =
      .ok ((newER ++ e0k :: oldRest).map refOf) := by
    rw [hpages1, runListing_cons_last ⟨newER ++ e0k :: oldRest, false⟩ [] ts0 [] true rfl]
    simp [collect_full_page ts0 (newER ++ e0k :: oldRest) hacc habove]
  have hsync1 := sync_eq src1 repo c0 cs ts0 cI0 ((newER ++ e0k :: oldRest).map refOf)
    htake hcp hsubs1
  have hrefs1 : (((newER ++ e0k :: oldRest)).map refOf).reverse =
      ((oldRest.map refOf).reverse ++ [refOf e0k]) ++ (refOf badE :: badRest) := by
    simp [List.map_append, List.reverse_append, hrevN]
  have habort := commitAll_abort src1 cI0 ((oldRest.map refOf).reverse ++ [refOf e0k])
    (refOf badE) badRest c0.treeSha c0.sha repo hok1 hbad
  have hrun1 : sync src1 repo =
      ⟨⟨(syncChain cI0 (((oldRest.map refOf).reverse ++ [refOf e0k]).map (subOf src1))
            c0.sha repo.counter).reverse ++ repo.branch,
        (syncTrees (((oldRest.map refOf).reverse ++ [refOf e0k]).map (subOf src1))
            c0.treeSha repo.counter).reverse ++ repo.trees,
        repo.counter + 2 * ((oldRest.map refOf).reverse ++ [refOf e0k]).length⟩,
       some ("Language " ++ (subOf src1 (refOf badE)).lang ++
         " does not have a registered extension.")⟩ := by
    rw [hsync1, hrefs1]
    exact habort
  have hsplit : (((oldRest.map refOf).reverse ++ [refOf e0k]).map (subOf src1)) =
      ((oldRest.map refOf).reverse).map (subOf src1) ++ [subOf src1 (refOf e0k)] := by
    simp
  obtain ⟨p, c2, hlast⟩ := syncChain_getLast cI0
    (((oldRest.map refOf).reverse).map (subOf src1)) (subOf src1 (refOf e0k))
    c0.sha repo.counter
  have hchainlast : (syncChain cI0
      (((oldRest.map refOf).reverse ++ [refOf e0k]).map (subOf src1))
      c0.sha repo.counter).getLast? =
      some (mkSyncCommit cI0 (subOf src1 (refOf e0k)) p c2) := by
    rw [hsplit]
    exact hlast
  have hhead : (syncChain cI0
      (((oldRest.map refOf).reverse ++ [refOf e0k]).map (subOf src1))
      c0.sha repo.counter).reverse.head? =
      some (mkSyncCommit cI0 (subOf src1 (refOf e0k)) p c2) := by
    rw [List.head?_reverse]
    exact hchainlast
  obtain ⟨hd, rtail, hcr⟩ : ∃ hd rtail,
      (syncChain cI0 (((oldRest.map refOf).reverse ++ [refOf e0k]).map (subOf src1))
        c0.sha repo.counter).reverse = hd :: rtail := by
    cases hcr2 : (syncChain cI0
        (((oldRest.map refOf).reverse ++ [refOf e0k]).map (subOf src1))
        c0.sha repo.counter).reverse with
    | nil => rw [hcr2] at hhead; simp at hhead
    | cons a b => exact ⟨a, b, rfl⟩
  have hhd : hd = mkSyncCommit cI0 (subOf src1 (refOf e0k)) p c2 := by
    rw [hcr] at hhead
    simpa using hhead
  have hbranch : (sync src1 repo).repo.branch = hd :: (rtail ++ repo.branch) := by
    rw [hrun1]
    show (syncChain cI0 (((oldRest.map refOf).reverse ++ [refOf e0k]).map (subOf src1))
        c0.sha repo.counter).reverse ++ repo.branch = _
    rw [hcr]
    rfl
  have htake2 : (sync src1 repo).repo.branch.take 100 =
      hd :: ((rtail ++ repo.branch).take 99) := by
    rw [hbranch]
    exact take_hundred_cons hd (rtail ++ repo.branch)
  have hmark : strStartsWith hd.message COMMIT_MESSAGE = true := by
    rw [hhd]
    exact mkSyncCommit_marker cI0 (subOf src1 (refOf e0k)) p c2
  have hdc : hd.committerDateMs / 1000 = e0k.timestamp := by
    rw [hhd]
    show (subOf src1 (refOf e0k)).timestamp * 1000 / 1000 = e0k.timestamp
    rw [Nat.mul_div_cancel _ (by norm_num), hts1]
  have hauthor : hd.author = cI0 := by
    rw [hhd]
    rfl
  have hcp2 : resolveCheckpoint (hd :: ((rtail ++ repo.branch).take 99)) =
      some (e0k.timestamp, cI0) := by
    have h1 := resolveCheckpoint_of_find (hd :: ((rtail ++ repo.branch).take 99))
      (by simp) hd (by rw [findSyncCommit]; exact List.find?_cons_of_pos _ hmark)
    rw [h1, hdc, hauthor]
  have hstop2 : (newER ++ e0k :: oldRest).all
      (fun s => decide (e0k.timestamp < s.timestamp)) = false := by
    simp [List.all_append, List.all_cons]
  have htw2 : (newER ++ e0k :: oldRest).takeWhile
      (fun s => decide (e0k.timestamp < s.timestamp)) = newER := by
    rw [takeWhile_append_all newER (e0k :: oldRest) (fun x hx => by simp [hsep x hx])]
    simp [List.takeWhile_cons]
  have hfil2 : newER.filter (fun s => decide (s.statusDisplay = "Accepted")) = newER :=
    List.filter_eq_self.mpr
      (fun x hx => by simp [hacc x (List.mem_append.mpr (Or.inl hx))])
  have hsubs2 : runListing src2.pages e0k.timestamp [] true = .ok (newER.map refOf) := by
    rw [hpages2, runListing_cons_stop ⟨newER ++ e0k :: oldRest, false⟩ []
      e0k.timestamp [] true hstop2]
    simp [htw2, hfil2]
  have hca2 := commitAll_ok src2 cI0 ((newER.map refOf).reverse) hd.treeSha hd.sha
    ((sync src1 repo).repo) (by rw [hrevN]; exact hok2)
  have hsync2 := sync_eq src2 ((sync src1 repo).repo) hd ((rtail ++ repo.branch).take 99)
    e0k.timestamp cI0 (newER.map refOf) htake2 hcp2 hsubs2
  have hrun2 := hsync2.trans hca2
  refine ⟨by rw [hrun1], by rw [hrun1], ?_, ?_⟩
  · rw [htake2]
    exact hcp2
  · refine ⟨syncChain cI0 (((newER.map refOf).reverse).map (subOf src2)) hd.sha
        ((sync src1 repo).repo.counter),
      (syncTrees (((newER.map refOf).reverse).map (subOf src2)) hd.treeSha
        ((sync src1 repo).repo.counter)).reverse, ?_, ?_, ?_, ?_, ?_⟩
    · rw [hrun2]
      simp
    · rw [syncChain_length]
      simp
    · simp [syncTrees_length]
    · rw [syncChain_committerDates]
      simp [List.map_map, Function.comp]
    · intro c hc
      exact syncChain_identity cI0 _ _ _ c hc

/-- Witness for C1 at the concrete scenario: the first run commits the
oldest submission and aborts on the unregistered language of the second;
the recovered checkpoint is the timestamp of the committed submission; the
re-invocation with the language registered finishes cleanly. -/
theorem C1_witness :
    (sync srcBadW repoW).error =
      some ("Language " ++ (subOf srcBadW (refOf eW2)).lang ++
        " does not have a registered extension.") ∧
    resolveCheckpoint ((sync srcBadW repoW).repo.branch.take 100) =
      some (100, authorW) ∧
    (sync srcW (sync srcBadW repoW).repo).error = none := by
  have h := C1_resume_correctness srcBadW srcW repoW baseCommitW [] 0 authorW
    [eW3, eW2] [] eW1 eW2 [refOf eW3]
    rfl (by decide) rfl rfl (by decide) (by decide) rfl (by decide) (by decide)
    (by decide) (by decide) (by decide)
  obtain ⟨h1, h2, h3, chain2, trees2, heq, -, -, -, -⟩ := h
  exact ⟨h1, h3, by rw [heq]⟩

end Claims

end LeetcodeSync
